import Mathlib

/-!
Verification of the narrative relationship and timeline graph engine of the
story-creator repository.  The definitions below are shallow embeddings of
the Python source:

* `saveAnalysisCache` / `getAnalysisCache` embed
  `NoSQLStorage.save_analysis_cache` / `get_analysis_cache`
  (src/api/storage/nosql_storage.py); the TinyDB table is a list of entries,
  `remove` is `filter`, `insert` appends, `search(...)[0]` is `find?`.
* `addConnection` embeds `Event.add_connection` (src/api/core/models/event.py).
* `resolvePosition` embeds the position-snapping expression
  `min(non_empty_indices, key=lambda x: abs(x - raw_pos))` used by
  `EventService._process_gpt_result` and `_process_combined_gpt_result`
  (src/api/services/event_service.py).
-/

namespace StoryCreator

/-- Cache table row written by `save_analysis_cache`.  The payload type is a
parameter (the Python value is an arbitrary JSON dict).  The advisory fields
`cache_id`, `analyzed_at` and `extracted_events_count` are irrelevant to
lookup behaviour and carried as plain data supplied by the caller (`uuid4()`
and `datetime.now()` are ambient inputs of the Python function). -/
structure CacheEntry (α : Type) where
  cache_id : String
  story_id : String
  story_content_hash : String
  raw_gpt_response : α
  analyzed_at : String
  model_used : String
  deriving Repr, DecidableEq

/-- Embedding of `NoSQLStorage.save_analysis_cache`: remove every entry of the
table whose `story_id` matches (any hash), then insert the new entry. -/
def saveAnalysisCache {α : Type} (table : List (CacheEntry α))
    (story_id content_hash : String) (gpt_response : α) (model : String)
    (cache_id analyzed_at : String) : List (CacheEntry α) :=
  (table.filter (fun e => ¬ e.story_id = story_id)) ++
    [{ cache_id := cache_id, story_id := story_id,
       story_content_hash := content_hash, raw_gpt_response := gpt_response,
       analyzed_at := analyzed_at, model_used := model }]

/-- Embedding of `NoSQLStorage.get_analysis_cache`: search for entries whose
`story_id` and `story_content_hash` both match and return the first, else
`none` (cache miss). -/
def getAnalysisCache {α : Type} (table : List (CacheEntry α))
    (story_id content_hash : String) : Option (CacheEntry α) :=
  table.find? (fun e => e.story_id = story_id ∧
    e.story_content_hash = content_hash)

/-- A single connection record stored in `Event.connections`
(src/api/core/models/event.py). -/
structure EventConnection where
  target_event_id : String
  relation_type : String
  relation_label : String
  deriving Repr, DecidableEq

/-- Embedding of `Event.add_connection`: if some stored connection already has
the same `target_event_id` and `relation_type`, return the list unchanged,
otherwise append the new record. -/
def addConnection (conns : List EventConnection)
    (target_event_id relation_type relation_label : String) :
    List EventConnection :=
  if conns.any (fun c => c.target_event_id = target_event_id ∧
      c.relation_type = relation_type) then
    conns
  else
    conns ++ [{ target_event_id := target_event_id,
                relation_type := relation_type,
                relation_label := relation_label }]

/-- Key on which `add_connection` deduplicates. -/
def connKey (c : EventConnection) : String × String :=
  (c.target_event_id, c.relation_type)

/-- Embedding of the snap expression of `EventService._process_gpt_result`
(and `_process_combined_gpt_result`): if the list of valid indices is
non-empty and the requested position is not among them, replace it by
`min(non_empty_indices, key=lambda x: abs(x - raw_pos))`; Python's `min`
keeps the first element attaining the minimal key. -/
def resolvePosition (p : Int) (V : List Int) : Int :=
  match V with
  | [] => p
  | v :: vs =>
      if p ∈ v :: vs then p
      else vs.foldl
        (fun best x => if (x - p).natAbs < (best - p).natAbs then x else best) v

/-- Lexicographic code-point comparison of character lists: the order Python
uses on strings (Lean's own `String.lt` is the same order, but its decision
procedure does not reduce inside the kernel, so the comparison is spelled out
structurally here). -/
def charListLt : List Char → List Char → Bool
  | [], [] => false
  | [], _ :: _ => true
  | _ :: _, [] => false
  | a :: as, b :: bs =>
      if a < b then true else if b < a then false else charListLt as bs

/-- String comparison used by Python's `sorted` on event-id pairs. -/
def strLt (a b : String) : Bool := charListLt a.data b.data

/-- Python `str.lower()`, modelled on the ASCII range (`Char.toLower`); the
claims never depend on non-ASCII case folding. -/
def pyLower (s : String) : String := String.mk (s.data.map Char.toLower)

/-- Whitespace recognised by Python's `str.strip()`. -/
def isPySpace (c : Char) : Bool :=
  c = ' ' ∨ c = '\t' ∨ c = '\n' ∨ c = '\r' ∨ c = '\x0b' ∨ c = '\x0c'

/-- Python `str.strip()`: drop whitespace from both ends. -/
def pyStrip (s : String) : String :=
  String.mk (((s.data.dropWhile isPySpace).reverse.dropWhile
    isPySpace).reverse)

/-- Blank-line test, Python `not p.strip()` on one line of the content. -/
def blankLine (s : String) : Bool := pyStrip s = ""

/-- Embedding of `[i for i, p in enumerate(paragraphs) if p.strip()]`
(src/api/services/event_service.py); the content string is modelled as its
list of lines (`content.split('\n')`).  The result is ascending by
construction. -/
def nonEmptyIndices (lines : List String) : List Int :=
  (lines.enum.filter (fun q => !blankLine q.2)).map (fun q => (q.1 : Int))

/-- Stored story record as read by `extract_events_from_world`; the content is
kept as its list of lines. -/
structure StoryRec where
  story_id : String
  title : String
  lines : List String
  deriving Repr, DecidableEq

/-- Per-story entry of the `story_map` built by `extract_events_from_world`. -/
structure StoryMapEntry where
  story_id : String
  title : String
  non_empty_indices : List Int
  deriving Repr, DecidableEq

/-- Embedding of the `story_map` construction in `extract_events_from_world`:
stories are enumerated, a story whose content is entirely blank
(`if not content.strip(): continue`) gets no entry, every other story is
keyed by its index with its id, title and non-empty line indices. -/
def buildStoryMap (stories : List StoryRec) : List (Nat × StoryMapEntry) :=
  stories.enum.filterMap (fun q =>
    if q.2.lines.all blankLine then none
    else some (q.1, { story_id := q.2.story_id, title := q.2.title,
                      non_empty_indices := nonEmptyIndices q.2.lines }))

/-- Dictionary lookup `story_map[story_idx]` preceded by the membership test
`if story_idx not in story_map`. -/
def lookupStory (smap : List (Nat × StoryMapEntry)) (idx : Nat) :
    Option StoryMapEntry :=
  (smap.find? (fun q => q.1 = idx)).map (fun q => q.2)

/-- One event object of the analyzer's JSON answer.  The Python code reads the
fields with `.get(key, default)`; the embedding gives every field a value, so
the defaults for absent keys are not modelled. -/
structure RawEvent where
  story_index : Nat
  title : String
  description : String
  year : Int
  era : String
  characters : List String
  locations : List String
  story_position : Int
  deriving Repr, DecidableEq

/-- Event record created by `_process_combined_gpt_result` (the fields of the
Python `Event` relevant to the pipeline claims; the generated uuid, metadata
and timestamps are omitted). -/
structure PEvent where
  title : String
  description : String
  story_id : String
  world_id : String
  year : Int
  era : String
  characters : List String
  locations : List String
  story_position : Int
  deriving Repr, DecidableEq

/-- Embedding of the event-creating loop of
`EventService._process_combined_gpt_result`: events whose `story_index` has no
entry in the story map are skipped; character and location names are resolved
through the lowercased name maps; the position is snapped onto the story's
non-empty line indices; events with blank title and blank description are
skipped.  The later connection pass of the Python function only mutates the
`connections` lists of the created events and neither adds nor removes an
event, so it is not part of this event-set embedding. -/
def processCombinedGptResult (events_data : List RawEvent)
    (smap : List (Nat × StoryMapEntry)) (world_id : String)
    (charMap locMap : String → Option String) : List PEvent :=
  events_data.filterMap (fun evt =>
    match lookupStory smap evt.story_index with
    | none => none
    | some info =>
        let char_ids := evt.characters.filterMap
          (fun n => charMap (pyLower n))
        let loc_ids := evt.locations.filterMap (fun n => locMap (pyLower n))
        let raw_pos := resolvePosition evt.story_position info.non_empty_indices
        if blankLine evt.title ∧ blankLine evt.description then none
        else some { title := evt.title, description := evt.description,
                    story_id := info.story_id, world_id := world_id,
                    year := evt.year, era := evt.era,
                    characters := char_ids, locations := loc_ids,
                    story_position := raw_pos })

/-- Head guard of `extract_events_from_story`: a story whose content is
entirely blank makes the extraction raise
`ValueError("Story has no content")` before any event is processed. -/
def extractSinglePrecheck (st : StoryRec) : Except String Unit :=
  if st.lines.all blankLine then Except.error "Story has no content"
  else Except.ok ()

/-- Stored event dictionary as read back from storage by `build_timeline` and
`get_cross_story_connections`. -/
structure TEvent where
  event_id : String
  story_id : String
  title : String
  year : Int
  era : String
  position : Int
  characters : List String
  locations : List String
  connections : List EventConnection
  deriving Repr, DecidableEq

/-- Distinct years in first-appearance order: the key insertion order of the
Python `defaultdict` grouping of `build_timeline`. -/
def yearKeys (evts : List TEvent) : List Int :=
  evts.foldl (fun acc e => if e.year ∈ acc then acc else acc ++ [e.year]) []

/-- Order on events used by `sorted(year_groups[year],
key=lambda e: e.get('story_position', 0))`. -/
def posLe (a b : TEvent) : Prop := a.position ≤ b.position

instance : DecidableRel posLe :=
  fun a b => inferInstanceAs (Decidable (a.position ≤ b.position))

instance : IsTotal TEvent posLe := ⟨fun a b => Int.le_total a.position b.position⟩

instance : IsTrans TEvent posLe := ⟨fun _ _ _ h h' => le_trans h h'⟩

/-- One `{year, era, events}` group of the timeline answer. -/
structure YearGroup where
  year : Int
  era : String
  events : List TEvent
  deriving Repr, DecidableEq

/-- Embedding of the year-grouping part of `EventService.build_timeline`:
group the events by year (`defaultdict` appends keep input order inside a
group), sort the years ascending, sort each group stably by story position
(Python's `sorted` is stable; `List.insertionSort` with a total order keeps
the input order of equal keys because each element is inserted in front of
the later, equal-keyed ones only when its key is strictly smaller), and take
the era of the first event of the sorted group carrying a non-empty era.
The display-only enrichment (story titles, character and location names) is
not modelled. -/
def buildTimelineYears (evts : List TEvent) : List YearGroup :=
  (List.insertionSort (fun a b : Int => a ≤ b) (yearKeys evts)).map (fun y =>
    let year_events :=
      List.insertionSort posLe (evts.filter (fun e => e.year = y))
    { year := y,
      era := ((year_events.find? (fun e => !(e.era = ""))).map
        (fun e => e.era)).getD "",
      events := year_events })

/-- One connection dictionary of the timeline answer. -/
structure ConnOut where
  from_event_id : String
  to_event_id : String
  relation_type : String
  relation_label : String
  deriving Repr, DecidableEq

/-- Canonically sorted pair, Python `tuple(sorted([a, b]))`. -/
def canonPair (a b : String) : String × String :=
  if strLt a b then (a, b) else (b, a)

/-- Appends an event to the bucket of one attribute id, creating the bucket at
the end on first use: the behaviour of `defaultdict(list)` in
`get_cross_story_connections`. -/
def bucketAdd (bs : List (String × List TEvent)) (c : String) (e : TEvent) :
    List (String × List TEvent) :=
  if bs.any (fun b => b.1 = c) then
    bs.map (fun b => if b.1 = c then (b.1, b.2 ++ [e]) else b)
  else bs ++ [(c, [e])]

/-- Inverted index attribute id → events, built in event order, as the two
`defaultdict` loops of `get_cross_story_connections` build it. -/
def buildBuckets (evts : List TEvent) (key : TEvent → List String) :
    List (String × List TEvent) :=
  evts.foldl (fun bs e => (key e).foldl (fun bs2 c => bucketAdd bs2 c e) bs) []

/-- All index pairs `i < j` of a list in the order of the two nested loops
`for i in range(len(evts)): for j in range(i + 1, len(evts))`. -/
def pairsOf {α : Type} : List α → List (α × α)
  | [] => []
  | x :: xs => (xs.map (fun y => (x, y))) ++ pairsOf xs

/-- State of the `seen_pairs` deduplication in
`get_cross_story_connections`. -/
structure DedupState where
  seen : List (String × String)
  out : List ConnOut

/-- One candidate processed against `seen_pairs`: already-seen canonical pairs
are dropped, fresh ones are recorded and appended to the answer. -/
def dedupStep (st : DedupState) (c : ConnOut) : DedupState :=
  if (c.from_event_id, c.to_event_id) ∈ st.seen then st
  else { seen := (c.from_event_id, c.to_event_id) :: st.seen,
         out := st.out ++ [c] }

/-- Candidate connections of the character loop of
`get_cross_story_connections`: for every character bucket, every event pair
of the bucket with different stories, as a canonical pair typed `character`.
`entityName` models `storage.load_entity(...).get('name', 'Unknown')`. -/
def charCandidates (evts : List TEvent)
    (entityName : String → Option String) : List ConnOut :=
  ((buildBuckets evts (fun e => e.characters)).map (fun b =>
    (pairsOf b.2).filterMap (fun q =>
      if q.1.story_id = q.2.story_id then none
      else
        let pr := canonPair q.1.event_id q.2.event_id
        some { from_event_id := pr.1, to_event_id := pr.2,
               relation_type := "character",
               relation_label :=
                 "Nhân vật chung: " ++ ((entityName b.1).getD "Unknown") }))).flatten

/-- Candidate connections of the location loop of
`get_cross_story_connections`: buckets whose location name matches the world
name (lowercased, possibly trimmed) are skipped entirely, the rest produce
canonical pairs typed `location`. -/
def locCandidates (evts : List TEvent)
    (locationName : String → Option String) (world_name_raw : String) :
    List ConnOut :=
  let world_name := pyLower world_name_raw
  ((buildBuckets evts (fun e => e.locations)).map (fun b =>
    let loc_name := (locationName b.1).getD "Unknown"
    if pyLower loc_name = world_name ∨
        pyStrip (pyLower loc_name) = pyStrip world_name then []
    else
      (pairsOf b.2).filterMap (fun q =>
        if q.1.story_id = q.2.story_id then none
        else
          let pr := canonPair q.1.event_id q.2.event_id
          some { from_event_id := pr.1, to_event_id := pr.2,
                 relation_type := "location",
                 relation_label := "Địa điểm chung: " ++ loc_name }))).flatten

/-- Embedding of `EventService.get_cross_story_connections`: fewer than two
events give the empty answer; otherwise the character candidates and then the
location candidates run through the single shared `seen_pairs`
deduplication. -/
def getCrossStoryConnections (evts : List TEvent)
    (entityName locationName : String → Option String)
    (world_name_raw : String) : List ConnOut :=
  if evts.length < 2 then []
  else ((charCandidates evts entityName ++
      locCandidates evts locationName world_name_raw).foldl dedupStep
      { seen := [], out := [] }).out

/-- Embedding of the connection-gathering tail of
`EventService.build_timeline`: every event's explicit connection list is
flattened into connection dictionaries and the cross-story connections are
appended (`all_connections.extend(cross_conns)`), with no deduplication
between the two parts. -/
def timelineConnections (evts : List TEvent)
    (entityName locationName : String → Option String)
    (world_name_raw : String) : List ConnOut :=
  ((evts.map (fun e => e.connections.map (fun c =>
    ({ from_event_id := e.event_id, to_event_id := c.target_event_id,
       relation_type := c.relation_type,
       relation_label := c.relation_label } : ConnOut)))).flatten)
  ++ getCrossStoryConnections evts entityName locationName world_name_raw

/-- Canonical unordered key of an emitted connection: the emitted cross-story
connections already store their endpoints canonically sorted; for an
arbitrary connection the canonical pair of its endpoints. -/
def connCanon (c : ConnOut) : String × String :=
  canonPair c.from_event_id c.to_event_id

end StoryCreator

namespace StoryCreator

/-! Layout embeddings (src/api/visualization/relationship_diagram.py).
Python floats are modelled as rationals; `math.sqrt`, `math.cos`, `math.sin`
and `math.pi` do not exist on ℚ and are taken as explicit function/constant
parameters, so every theorem about a layout quantifies over them.  The
ambient stream of `random.uniform` draws consumed by
`force_directed_layout` is likewise an explicit input list. -/

/-- Planar position. -/
abbrev Pos2 := ℚ × ℚ

/-- Python `min` on two rationals (the lattice `min` of ℚ does not reduce
inside the kernel, so it is spelled out). -/
def pyMinQ (a b : ℚ) : ℚ := if a ≤ b then a else b

/-- Python `max` on two rationals. -/
def pyMaxQ (a b : ℚ) : ℚ := if a ≤ b then b else a

/-- Python `min` on two integers. -/
def pyMinI (a b : Int) : Int := if a ≤ b then a else b

/-- Python `math.sqrt(dx*dx + dy*dy) or 1`: the float `or` yields 1 exactly
when the left value is `0.0`. -/
def distOr1 (sq : ℚ → ℚ) (dx dy : ℚ) : ℚ :=
  let d := sq (dx * dx + dy * dy)
  if d = 0 then 1 else d

/-- The canvas band `[margin, dimension - margin]` (margin = 100) in both
coordinates: the region the layout claims to keep nodes inside. -/
def inBand (w h : ℚ) (q : Pos2) : Prop :=
  100 ≤ q.1 ∧ q.1 ≤ w - 100 ∧ 100 ≤ q.2 ∧ q.2 ≤ h - 100

/-- Position-assignment loop of the initialisation: each enumerated entity in
turn binds its draw in the position map. -/
def fdInitAux (draws : List Pos2) :
    List (Nat × String) → (String → Pos2) → (String → Pos2)
  | [], f => f
  | q :: rest, f =>
      fdInitAux draws rest
        (fun id => if id = q.2 then draws.getD q.1 (100, 100) else f id)

/-- Initial positions of `force_directed_layout`: the i-th entity takes the
i-th pair drawn from `random.uniform(margin, dim - margin)`.  Entities beyond
the supplied draw list default to the corner `(100, 100)`; the Python stream
is unbounded, so callers supply at least one draw per entity. -/
def fdInit (ents : List String) (draws : List Pos2) : String → Pos2 :=
  fdInitAux draws ents.enum (fun _ => (100, 100))

/-- Repulsion accumulation of one iteration: every unordered entity pair
pushes apart with force `k² / distance` along the connecting line. -/
def repulsionPass (sq : ℚ → ℚ) (k : ℚ) (pos : String → Pos2)
    (ents : List String) (disp : String → Pos2) : String → Pos2 :=
  (pairsOf ents).foldl (fun d q =>
    let p1 := pos q.1
    let p2 := pos q.2
    let dx := p1.1 - p2.1
    let dy := p1.2 - p2.2
    let dist := distOr1 sq dx dy
    let force := k * k / dist
    let d1 := d q.1
    let d2 := d q.2
    fun id =>
      if id = q.1 then (d1.1 + dx / dist * force, d1.2 + dy / dist * force)
      else if id = q.2 then (d2.1 - dx / dist * force, d2.2 - dy / dist * force)
      else d id) disp

/-- Attraction accumulation of one iteration: every connection map entry whose
endpoints both have positions pulls the source endpoint by
`distance² / k` (the Python loop updates only `ent1_id` and relies on the
symmetry of the connection map). -/
def attractionPass (sq : ℚ → ℚ) (k : ℚ) (pos : String → Pos2)
    (ents : List String) (conns : List (String × List String))
    (disp : String → Pos2) : String → Pos2 :=
  conns.foldl (fun d q =>
    if ents.contains q.1 then
      q.2.foldl (fun d2 e2 =>
        if ents.contains e2 then
          let p1 := pos q.1
          let p2 := pos e2
          let dx := p1.1 - p2.1
          let dy := p1.2 - p2.2
          let dist := distOr1 sq dx dy
          let force := dist * dist / k
          let d1 := d2 q.1
          fun id =>
            if id = q.1 then
              (d1.1 - dx / dist * force, d1.2 - dy / dist * force)
            else d2 id
        else d2) d
    else d) disp

/-- Displacement application of one iteration: each entity in loop order moves
by its accumulated displacement capped at the current temperature, then is
clamped into `[margin, dimension - margin]` with `margin = 100`. -/
def applyPass (sq : ℚ → ℚ) (w h temp : ℚ) (disp : String → Pos2) :
    List String → (String → Pos2) → (String → Pos2)
  | [], pos => pos
  | e :: rest, pos =>
      applyPass sq w h temp disp rest (fun id =>
        if id = e then
          let d := disp e
          let dlen := distOr1 sq d.1 d.2
          let pe := pos e
          (pyMaxQ 100 (pyMinQ (w - 100)
             (pe.1 + d.1 / dlen * pyMinQ dlen temp)),
           pyMaxQ 100 (pyMinQ (h - 100)
             (pe.2 + d.2 / dlen * pyMinQ dlen temp)))
        else pos id)

/-- One full iteration of `force_directed_layout` on the pair
(positions, temperature): fresh zero displacements, repulsion, attraction,
application with clamping, then cooling by the factor 0.95 = 19/20. -/
def fdIteration (sq : ℚ → ℚ) (w h k : ℚ) (ents : List String)
    (conns : List (String × List String)) (st : (String → Pos2) × ℚ) :
    (String → Pos2) × ℚ :=
  let disp1 := repulsionPass sq k st.1 ents (fun _ => (0, 0))
  let disp2 := attractionPass sq k st.1 ents conns disp1
  (applyPass sq w h st.2 disp2 ents st.1, st.2 * (19 / 20))

/-- Embedding of `RelationshipDiagram.force_directed_layout`.  An empty entity
list makes the Python code raise `ZeroDivisionError` computing
`area / len(entities)`, embedded as `none`.  Otherwise: seeded-by-stream
initial positions, `k = sqrt(area / n)`, initial temperature `width / 10`,
the given number of iterations, and the final positions read back in entity
order (the Python answer is the positions dict keyed by entity id). -/
def forceDirectedLayout (ents : List String)
    (conns : List (String × List String)) (w h : ℚ) (iterations : Nat)
    (draws : List Pos2) (sq : ℚ → ℚ) : Option (List (String × Pos2)) :=
  match ents with
  | [] => none
  | _ =>
    let pos0 := fdInit ents draws
    let k := sq (w * h / (ents.length : ℚ))
    let final := (fdIteration sq w h k ents conns)^[iterations] (pos0, w / 10)
    some (ents.map (fun e => (e, final.1 e)))

/-- Embedding of `RelationshipDiagram.circular_layout`: the i-th of n entities
sits at angle `2·π·i/n` on the circle of radius
`radius` (defaulting to `min(width, height) // 3`) around the canvas centre
`(width // 2, height // 2)`; `math.pi`, `math.cos` and `math.sin` are the
parameters `piQ`, `cosF`, `sinF`.  An empty entity list yields the empty
answer without evaluating any division. -/
def circularLayout (piQ : ℚ) (cosF sinF : ℚ → ℚ) (w h : Int)
    (radius : Option Int) (ents : List String) : List (String × Pos2) :=
  let r : Int := radius.getD (Int.fdiv (pyMinI w h) 3)
  let cx : Int := Int.fdiv w 2
  let cy : Int := Int.fdiv h 2
  let n := ents.length
  ents.enum.map (fun q =>
    let angle := 2 * piQ * (q.1 : ℚ) / (n : ℚ)
    (q.2, ((cx : ℚ) + (r : ℚ) * cosF angle, (cy : ℚ) + (r : ℚ) * sinF angle)))

/-- Connection-type map of `RelationshipDiagram.analyze_connections`, modelled
as a function from ordered entity pairs to the optional stored type string. -/
abbrev ConnMap := String → String → Option String

/-- Story data consumed by `analyze_connections`. -/
structure StoryData where
  entities : List String
  locations : List String
  deriving Repr, DecidableEq

/-- Point update of the nested connection dictionaries. -/
def connMapSet (m : ConnMap) (a b : String) (v : String) : ConnMap :=
  fun x y => if x = a ∧ y = b then some v else m x y

/-- Embedding of `RelationshipDiagram.analyze_connections`: a first pass marks
every entity pair of a story as connected by `"story"` in both directions; a
second pass upgrades pairs already connected to `"story+location"` when their
story also lists at least one location and more than one entity. -/
def analyzeConnections (stories : List StoryData) : ConnMap :=
  let m1 := stories.foldl (fun m st =>
    (pairsOf st.entities).foldl (fun m2 q =>
      connMapSet (connMapSet m2 q.1 q.2 "story") q.2 q.1 "story") m)
    (fun _ _ => none)
  stories.foldl (fun m st =>
    if st.locations ≠ [] ∧ 1 < st.entities.length then
      (pairsOf st.entities).foldl (fun m2 q =>
        if (m2 q.1 q.2).isSome then
          connMapSet (connMapSet m2 q.1 q.2 "story+location") q.2 q.1
            "story+location"
        else m2) m
    else m) m1

/-! Helper lemmas. -/

/-- Looking a table up never succeeds on entries whose `story_id` was filtered
away. -/
lemma getAnalysisCache_filter_ne {α : Type} (table : List (CacheEntry α))
    (id f : String) :
    (table.filter (fun e => ¬ e.story_id = id)).find?
      (fun e => e.story_id = id ∧ e.story_content_hash = f) = none := by
  rw [List.find?_eq_none]
  intro e he
  have := List.of_mem_filter he
  simp only [decide_eq_true_eq] at this ⊢
  exact fun hc => this hc.1

/-- Lookup succeeds exactly when a matching entry exists. -/
lemma getAnalysisCache_isSome {α : Type} (table : List (CacheEntry α))
    (id f : String) :
    (getAnalysisCache table id f).isSome ↔
      ∃ e ∈ table, e.story_id = id ∧ e.story_content_hash = f := by
  simp [getAnalysisCache, List.find?_isSome]

/-- Adding a connection whose key is already present changes nothing. -/
lemma addConnection_of_mem (conns : List EventConnection)
    (t r l : String) (h : ∃ c ∈ conns, c.target_event_id = t ∧
      c.relation_type = r) :
    addConnection conns t r l = conns := by
  unfold addConnection
  rw [if_pos]
  rw [List.any_eq_true]
  obtain ⟨c, hc, h1, h2⟩ := h
  exact ⟨c, hc, by simp [h1, h2]⟩

/-- Adding a connection preserves key uniqueness. -/
lemma addConnection_pairwise (cs : List EventConnection) (t r l : String)
    (h : List.Pairwise (fun a b => connKey a ≠ connKey b) cs) :
    List.Pairwise (fun a b => connKey a ≠ connKey b)
      (addConnection cs t r l) := by
  unfold addConnection
  split
  · exact h
  · rename_i hany
    rw [List.pairwise_append]
    refine ⟨h, List.pairwise_singleton _ _, ?_⟩
    intro a ha b hb
    simp only [List.mem_singleton] at hb
    subst hb
    have := List.any_eq_false.mp (Bool.not_eq_true _ ▸ hany) a ha
    simp only [decide_eq_true_eq, not_and] at this
    intro hk
    have h1 : a.target_event_id = t := congrArg Prod.fst hk
    have h2 : a.relation_type = r := congrArg Prod.snd hk
    exact this h1 h2

/-- Any fold of `addConnection` calls over a key-unique list stays
key-unique. -/
lemma addConnection_foldl_pairwise (calls : List (String × String × String)) :
    ∀ (cs : List EventConnection),
    List.Pairwise (fun a b => connKey a ≠ connKey b) cs →
    List.Pairwise (fun a b => connKey a ≠ connKey b)
      (calls.foldl (fun cs2 q => addConnection cs2 q.1 q.2.1 q.2.2) cs) := by
  induction calls with
  | nil => intro cs h; exact h
  | cons q calls ih =>
      intro cs h
      exact ih _ (addConnection_pairwise cs q.1 q.2.1 q.2.2 h)

/-- Specification of the Python `min(..., key=lambda x: abs(x - p))` fold over
a strictly ascending list: the result is a member, minimises the distance to
`p`, and undercuts every equally distant member (Python's `min` keeps the
first minimiser, which in an ascending list is the smallest). -/
lemma snapFold_spec (p : Int) :
    ∀ (l : List Int) (b : Int), List.Sorted (· < ·) (b :: l) →
    (l.foldl (fun best x =>
        if (x - p).natAbs < (best - p).natAbs then x else best) b ∈ b :: l) ∧
    (∀ y ∈ b :: l,
      ((l.foldl (fun best x =>
          if (x - p).natAbs < (best - p).natAbs then x else best) b - p).natAbs
        ≤ (y - p).natAbs) ∧
      ((y - p).natAbs =
          (l.foldl (fun best x =>
            if (x - p).natAbs < (best - p).natAbs then x else best) b
            - p).natAbs →
        l.foldl (fun best x =>
          if (x - p).natAbs < (best - p).natAbs then x else best) b ≤ y)) := by
  intro l
  induction l with
  | nil =>
      intro b _
      constructor
      · simp
      · intro y hy
        simp only [List.mem_singleton] at hy
        subst hy
        exact ⟨le_refl _, fun _ => le_refl _⟩
  | cons x l ih =>
      intro b hs
      rw [List.sorted_cons] at hs
      obtain ⟨hb, hs2⟩ := hs
      have hbx : b < x := hb x (List.mem_cons_self x l)
      have hs2' := hs2
      rw [List.sorted_cons] at hs2'
      obtain ⟨hx, hl⟩ := hs2'
      have hs' : List.Sorted (· < ·)
          ((if (x - p).natAbs < (b - p).natAbs then x else b) :: l) := by
        rw [List.sorted_cons]
        refine ⟨?_, hl⟩
        intro y hy
        split
        · exact hx y hy
        · exact hb y (List.mem_cons_of_mem x hy)
      obtain ⟨hmem, hall⟩ := ih _ hs'
      rw [List.foldl_cons]
      set b' := if (x - p).natAbs < (b - p).natAbs then x else b with hb'
      set r := l.foldl (fun best x =>
        if (x - p).natAbs < (best - p).natAbs then x else best) b' with hr
      have hrb' : (r - p).natAbs ≤ (b' - p).natAbs :=
        (hall b' (List.mem_cons_self b' l)).1
      constructor
      · rcases List.mem_cons.mp hmem with h1 | h2
        · rw [h1, hb']
          split
          · exact List.mem_cons_of_mem b (List.mem_cons_self x l)
          · exact List.mem_cons_self b (x :: l)
        · exact List.mem_cons_of_mem b (List.mem_cons_of_mem x h2)
      · intro y hy
        rcases List.mem_cons.mp hy with h1 | h2
        · -- y = b
          by_cases hc : (x - p).natAbs < (b - p).natAbs
          · have hb'x : b' = x := by rw [hb', if_pos hc]
            have hle : (r - p).natAbs < (y - p).natAbs := by
              calc (r - p).natAbs ≤ (b' - p).natAbs := hrb'
                _ = (x - p).natAbs := by rw [hb'x]
                _ < (y - p).natAbs := by rw [h1]; exact hc
            exact ⟨le_of_lt hle, fun he => absurd he (by omega)⟩
          · have hb'b : b' = b := by rw [hb', if_neg hc]
            have := hall b' (List.mem_cons_self b' l)
            rw [hb'b, ← h1] at this
            exact this
        · rcases List.mem_cons.mp h2 with h3 | h4
          · -- y = x
            by_cases hc : (x - p).natAbs < (b - p).natAbs
            · have hb'x : b' = x := by rw [hb', if_pos hc]
              have := hall b' (List.mem_cons_self b' l)
              rw [hb'x, ← h3] at this
              exact this
            · have hb'b : b' = b := by rw [hb', if_neg hc]
              have hwb := hall b' (List.mem_cons_self b' l)
              rw [hb'b] at hwb
              push_neg at hc
              subst h3
              constructor
              · exact le_trans hwb.1 hc
              · intro he
                have hkb : (b - p).natAbs = (r - p).natAbs := by omega
                have := hwb.2 hkb
                omega
          · exact hall y (List.mem_cons_of_mem b' h4)

/-- Lookup after a save: the only entry for the saved unit id is the freshly
saved one, so a lookup for that id hits exactly when the fingerprint
matches. -/
lemma getAnalysisCache_save {α : Type} (table : List (CacheEntry α))
    (id f f' m c t : String) (p : α) :
    getAnalysisCache (saveAnalysisCache table id f p m c t) id f' =
      if f = f' then
        some { cache_id := c, story_id := id, story_content_hash := f,
               raw_gpt_response := p, analyzed_at := t, model_used := m }
      else none := by
  unfold getAnalysisCache saveAnalysisCache
  rw [List.find?_append]
  have h1 := getAnalysisCache_filter_ne table id f'
  unfold getAnalysisCache at *
  rw [h1]
  by_cases hf : f = f'
  · subst hf
    simp [List.find?]
  · simp [List.find?, hf]

/-- Membership form of `resolvePosition`: on a non-empty valid set the result
lies in the set (no sortedness needed). -/
lemma resolvePosition_mem (p : Int) (V : List Int) (hne : V ≠ []) :
    resolvePosition p V ∈ V := by
  cases V with
  | nil => exact absurd rfl hne
  | cons v vs =>
      simp only [resolvePosition]
      split
      · assumption
      · have : ∀ (l : List Int) (b : Int),
            l.foldl (fun best x =>
              if (x - p).natAbs < (best - p).natAbs then x else best) b
              ∈ b :: l := by
          intro l
          induction l with
          | nil => intro b; simp
          | cons x l ih =>
              intro b
              rw [List.foldl_cons]
              rcases List.mem_cons.mp (ih (if (x - p).natAbs < (b - p).natAbs
                then x else b)) with h1 | h2
              · rw [h1]
                split
                · exact List.mem_cons_of_mem b (List.mem_cons_self x l)
                · exact List.mem_cons_self b (x :: l)
              · exact List.mem_cons_of_mem b (List.mem_cons_of_mem x h2)
        exact this vs v

/-- Distinct years stay distinct: the grouping fold only appends unseen
years. -/
lemma yearKeys_nodup (evts : List TEvent) : (yearKeys evts).Nodup := by
  unfold yearKeys
  suffices h : ∀ (l : List TEvent) (acc : List Int), acc.Nodup →
      (l.foldl (fun acc2 e =>
        if e.year ∈ acc2 then acc2 else acc2 ++ [e.year]) acc).Nodup by
    exact h evts [] List.nodup_nil
  intro l
  induction l with
  | nil => intro acc h; exact h
  | cons e l ih =>
      intro acc h
      rw [List.foldl_cons]
      apply ih
      split
      · exact h
      · rename_i hmem
        refine List.Nodup.append h (List.nodup_singleton _) ?_
        intro y hy hy'
        simp only [List.mem_singleton] at hy'
        exact hmem (hy' ▸ hy)

/-- Filtering on an exact position commutes with `orderedInsert`: the new
element lands in front of every stored element with the same position
(elements passed over have strictly smaller positions). -/
lemma filter_orderedInsert (pr : Int) (a : TEvent) (l : List TEvent) :
    (List.orderedInsert posLe a l).filter (fun e => e.position = pr) =
      if a.position = pr
      then a :: l.filter (fun e => e.position = pr)
      else l.filter (fun e => e.position = pr) := by
  induction l with
  | nil =>
      by_cases hpa : a.position = pr
      · simp [List.orderedInsert, List.filter_cons, hpa]
      · simp [List.orderedInsert, List.filter_cons, hpa]
  | cons b l ih =>
      rw [List.orderedInsert]
      by_cases hab : posLe a b
      · rw [if_pos hab]
        by_cases hpa : a.position = pr
        · simp [List.filter_cons, hpa]
        · simp [List.filter_cons, hpa]
      · rw [if_neg hab]
        by_cases hpa : a.position = pr
        · have hbp : ¬ b.position = pr := by
            unfold posLe at hab
            push_neg at hab
            omega
          rw [if_pos hpa]
          simp only [List.filter_cons]
          rw [ih, if_pos hpa]
          simp [hbp]
        · rw [if_neg hpa]
          simp only [List.filter_cons]
          rw [ih, if_neg hpa]

/-- Stability of the stable sort: the sublist of events at any fixed position
is untouched by sorting on positions. -/
lemma filter_insertionSort (pr : Int) (l : List TEvent) :
    (List.insertionSort posLe l).filter (fun e => e.position = pr) =
      l.filter (fun e => e.position = pr) := by
  induction l with
  | nil => rfl
  | cons a l ih =>
      rw [List.insertionSort, filter_orderedInsert, ih]
      by_cases hpa : a.position = pr
      · rw [if_pos hpa]
        simp [List.filter_cons, hpa]
      · rw [if_neg hpa]
        simp [List.filter_cons, hpa]

/-- Two strings that are not lexicographically below each other are equal. -/
lemma charListLt_antisymm : ∀ (l1 l2 : List Char),
    charListLt l1 l2 = false → charListLt l2 l1 = false → l1 = l2 := by
  intro l1
  induction l1 with
  | nil =>
      intro l2 h1 _
      cases l2 with
      | nil => rfl
      | cons b bs => simp [charListLt] at h1
  | cons a as ih =>
      intro l2 h1 h2
      cases l2 with
      | nil => simp [charListLt] at h2
      | cons b bs =>
          simp only [charListLt] at h1 h2
          by_cases hab : a < b
          · rw [if_pos hab] at h1
            cases h1
          · rw [if_neg hab] at h1
            by_cases hba : b < a
            · rw [if_pos hba] at h2
              cases h2
            · rw [if_neg hba, if_neg hab] at h2
              rw [if_neg hba] at h1
              have hchar : a = b := le_antisymm (le_of_not_lt hba)
                (le_of_not_lt hab)
              rw [hchar, ih bs h1 h2]

/-- Antisymmetry of the string comparison. -/
lemma strLt_antisymm (a b : String) (h1 : strLt a b = false)
    (h2 : strLt b a = false) : a = b := by
  cases a with
  | mk d1 =>
      cases b with
      | mk d2 =>
          exact congrArg String.mk (charListLt_antisymm d1 d2 h1 h2)

/-- Canonical sorting of an already canonical pair changes nothing. -/
lemma canonPair_idem (a b : String) :
    canonPair (canonPair a b).1 (canonPair a b).2 = canonPair a b := by
  unfold canonPair
  by_cases h : strLt a b = true
  · rw [if_pos h]
    dsimp only
    rw [if_pos h]
  · rw [if_neg h]
    dsimp only
    by_cases h2 : strLt b a = true
    · rw [if_pos h2]
    · rw [if_neg h2]
      have hf1 : strLt a b = false := by
        cases hh : strLt a b
        · rfl
        · exact absurd hh h
      have hf2 : strLt b a = false := by
        cases hh : strLt b a
        · rfl
        · exact absurd hh h2
      rw [strLt_antisymm a b hf1 hf2]

/-- The seen-pairs fold keeps every emitted pair recorded and never emits the
same endpoint pair twice. -/
lemma dedupFold_invariant (cands : List ConnOut) :
    ∀ st : DedupState,
    (∀ c ∈ st.out, (c.from_event_id, c.to_event_id) ∈ st.seen) →
    List.Pairwise (fun c d => (c.from_event_id, c.to_event_id) ≠
      (d.from_event_id, d.to_event_id)) st.out →
    (∀ c ∈ (cands.foldl dedupStep st).out,
      (c.from_event_id, c.to_event_id) ∈ (cands.foldl dedupStep st).seen) ∧
    List.Pairwise (fun c d => (c.from_event_id, c.to_event_id) ≠
      (d.from_event_id, d.to_event_id)) (cands.foldl dedupStep st).out := by
  induction cands with
  | nil => intro st h1 h2; exact ⟨h1, h2⟩
  | cons c cands ih =>
      intro st h1 h2
      rw [List.foldl_cons]
      unfold dedupStep
      split
      · exact ih st h1 h2
      · rename_i hnot
        apply ih
        · intro d hd
          rcases List.mem_append.mp hd with hd1 | hd2
          · exact List.mem_cons_of_mem _ (h1 d hd1)
          · simp only [List.mem_singleton] at hd2
            subst hd2
            exact List.mem_cons_self _ _
        · rw [List.pairwise_append]
          refine ⟨h2, List.pairwise_singleton _ _, ?_⟩
          intro a ha b hb
          simp only [List.mem_singleton] at hb
          subst hb
          intro he
          exact hnot (he ▸ h1 a ha)

/-- Every answer element of the seen-pairs fold is an old answer element or a
candidate. -/
lemma dedupFold_subset (cands : List ConnOut) :
    ∀ st : DedupState, ∀ c ∈ (cands.foldl dedupStep st).out,
      c ∈ st.out ∨ c ∈ cands := by
  induction cands with
  | nil => intro st c hc; exact Or.inl hc
  | cons c0 cands ih =>
      intro st c hc
      rw [List.foldl_cons] at hc
      rcases ih _ c hc with h1 | h2
      · unfold dedupStep at h1
        split at h1
        · exact Or.inl h1
        · rcases List.mem_append.mp h1 with h3 | h4
          · exact Or.inl h3
          · simp only [List.mem_singleton] at h4
            exact Or.inr (h4 ▸ List.mem_cons_self c0 cands)
      · exact Or.inr (List.mem_cons_of_mem c0 h2)

/-- Character candidates carry canonically sorted endpoint pairs. -/
lemma charCandidates_canonical (evts : List TEvent)
    (en : String → Option String) :
    ∀ c ∈ charCandidates evts en,
      canonPair c.from_event_id c.to_event_id =
        (c.from_event_id, c.to_event_id) := by
  intro c hc
  unfold charCandidates at hc
  obtain ⟨l, hl, hcl⟩ := List.mem_flatten.mp hc
  obtain ⟨b, _, rfl⟩ := List.mem_map.mp hl
  obtain ⟨q, _, hq⟩ := List.mem_filterMap.mp hcl
  by_cases hst : q.1.story_id = q.2.story_id
  · rw [if_pos hst] at hq
    cases hq
  · rw [if_neg hst] at hq
    cases hq
    exact canonPair_idem _ _

/-- Location candidates carry canonically sorted endpoint pairs. -/
lemma locCandidates_canonical (evts : List TEvent)
    (ln : String → Option String) (wn : String) :
    ∀ c ∈ locCandidates evts ln wn,
      canonPair c.from_event_id c.to_event_id =
        (c.from_event_id, c.to_event_id) := by
  intro c hc
  unfold locCandidates at hc
  obtain ⟨l, hl, hcl⟩ := List.mem_flatten.mp hc
  obtain ⟨b, _, rfl⟩ := List.mem_map.mp hl
  dsimp only at hcl
  split at hcl
  · cases hcl
  · obtain ⟨q, _, hq⟩ := List.mem_filterMap.mp hcl
    by_cases hst : q.1.story_id = q.2.story_id
    · rw [if_pos hst] at hq
      cases hq
    · rw [if_neg hst] at hq
      cases hq
      exact canonPair_idem _ _

/-- The cross-story connection list never contains two entries with the same
canonical event pair (in particular never two parallel edges, whatever their
relation types). -/
lemma crossConnections_pairwise (evts : List TEvent)
    (en ln : String → Option String) (wn : String) :
    List.Pairwise (fun c d => connCanon c ≠ connCanon d)
      (getCrossStoryConnections evts en ln wn) := by
  unfold getCrossStoryConnections
  split
  · exact List.Pairwise.nil
  · have h0 : ∀ c ∈ (⟨[], []⟩ : DedupState).out,
        (c.from_event_id, c.to_event_id) ∈ (⟨[], []⟩ : DedupState).seen := by
      intro c hc
      cases hc
    have hp := (dedupFold_invariant
      (charCandidates evts en ++ locCandidates evts ln wn) ⟨[], []⟩ h0
      List.Pairwise.nil).2
    have hsub := dedupFold_subset
      (charCandidates evts en ++ locCandidates evts ln wn) ⟨[], []⟩
    refine hp.imp_of_mem ?_
    intro a b ha hb hne
    have hacan : canonPair a.from_event_id a.to_event_id =
        (a.from_event_id, a.to_event_id) := by
      rcases hsub a ha with h | h
      · cases h
      · rcases List.mem_append.mp h with h | h
        · exact charCandidates_canonical evts en a h
        · exact locCandidates_canonical evts ln wn a h
    have hbcan : canonPair b.from_event_id b.to_event_id =
        (b.from_event_id, b.to_event_id) := by
      rcases hsub b hb with h | h
      · cases h
      · rcases List.mem_append.mp h with h | h
        · exact charCandidates_canonical evts en b h
        · exact locCandidates_canonical evts ln wn b h
    unfold connCanon
    rw [hacan, hbcan]
    exact hne

/-- A story-map hit names a stored story that is not entirely blank, whose
entry carries exactly that story's id, title and valid line indices. -/
lemma lookupStory_buildStoryMap (stories : List StoryRec) (idx : Nat)
    (info : StoryMapEntry)
    (h : lookupStory (buildStoryMap stories) idx = some info) :
    ∃ st, stories[idx]? = some st ∧ st.lines.all blankLine = false ∧
      info = ⟨st.story_id, st.title, nonEmptyIndices st.lines⟩ := by
  unfold lookupStory at h
  obtain ⟨q, hq, hq2⟩ := Option.map_eq_some'.mp h
  have hpred := List.find?_some hq
  have hmem := List.mem_of_find?_eq_some hq
  unfold buildStoryMap at hmem
  obtain ⟨p, hp, hpq⟩ := List.mem_filterMap.mp hmem
  by_cases hbl : p.2.lines.all blankLine
  · rw [if_pos hbl] at hpq
    cases hpq
  · rw [if_neg hbl] at hpq
    cases hpq
    have hidx : p.1 = idx := by simpa using hpred
    refine ⟨p.2, ?_, ?_, hq2.symm⟩
    · rw [← hidx]
      exact List.mem_enum_iff_getElem?.mp hp
    · cases hh : p.2.lines.all blankLine
      · rfl
      · exact absurd hh hbl

/-- A story with some non-blank line has a non-empty valid index list. -/
lemma nonEmptyIndices_ne_nil (lines : List String)
    (h : lines.all blankLine = false) : nonEmptyIndices lines ≠ [] := by
  obtain ⟨x, hx, hnb⟩ := List.all_eq_false.mp h
  obtain ⟨i, hi⟩ := List.get?_of_mem hx
  have henum : (i, x) ∈ lines.enum := by
    rw [List.mem_enum_iff_getElem?, ← List.get?_eq_getElem?]
    exact hi
  have hpred : (!blankLine (i, x).2) = true := by
    simp only [Bool.not_eq_true']
    cases hh : blankLine x
    · rfl
    · exact absurd hh (by simpa using hnb)
  have hfil : (i, x) ∈ lines.enum.filter (fun q => !blankLine q.2) :=
    List.mem_filter.mpr ⟨henum, hpred⟩
  have hmapmem : ((i : Int)) ∈ nonEmptyIndices lines := by
    unfold nonEmptyIndices
    exact List.mem_map_of_mem _ hfil
  exact List.ne_nil_of_mem hmapmem

/-- A fully blank story has no story-map entry, so every analyzer event
referencing its index is dropped by the processing loop. -/
lemma lookupStory_blank_none (stories : List StoryRec) (idx : Nat)
    (st : StoryRec) (hst : stories[idx]? = some st)
    (hbl : st.lines.all blankLine = true) :
    lookupStory (buildStoryMap stories) idx = none := by
  unfold lookupStory
  suffices hf : (buildStoryMap stories).find? (fun q => q.1 = idx) = none by
    rw [hf]
    rfl
  rw [List.find?_eq_none]
  intro q hq
  unfold buildStoryMap at hq
  obtain ⟨p, hp, hpq⟩ := List.mem_filterMap.mp hq
  by_cases hb2 : p.2.lines.all blankLine
  · rw [if_pos hb2] at hpq
    cases hpq
  · rw [if_neg hb2] at hpq
    cases hpq
    simp only [decide_eq_true_eq]
    intro hcon
    have hget := List.mem_enum_iff_getElem?.mp hp
    rw [hcon, hst] at hget
    injection hget with h3
    exact hb2 (h3 ▸ hbl)

/-- Clamping into `[100, dim - 100]` lands inside the band whenever the
canvas dimension is at least 200. -/
lemma clamp_bounds (w x : ℚ) (hw : 200 ≤ w) :
    100 ≤ pyMaxQ 100 (pyMinQ (w - 100) x) ∧
    pyMaxQ 100 (pyMinQ (w - 100) x) ≤ w - 100 := by
  have hm : pyMinQ (w - 100) x ≤ w - 100 := by
    unfold pyMinQ
    split
    · exact le_refl _
    · rename_i hx
      exact le_of_not_le hx
  constructor
  · unfold pyMaxQ
    split
    · assumption
    · exact le_refl _
  · unfold pyMaxQ
    split
    · exact hm
    · linarith

/-- A pointwise property of positions survives the initialisation loop when
every draw and the default corner satisfy it. -/
lemma fdInitAux_pointwise (draws : List Pos2) (P : Pos2 → Prop)
    (hd : ∀ i : Nat, P (draws.getD i (100, 100))) :
    ∀ (l : List (Nat × String)) (f : String → Pos2),
      (∀ id, P (f id)) → ∀ id, P (fdInitAux draws l f id) := by
  intro l
  induction l with
  | nil => intro f hf id; exact hf id
  | cons q rest ih =>
      intro f hf id
      refine ih _ ?_ id
      intro id2
      show P (if id2 = q.2 then draws.getD q.1 (100, 100) else f id2)
      split
      · exact hd q.1
      · exact hf id2

/-- The clamping loop keeps every position inside the canvas band. -/
lemma applyPass_pointwise (sq : ℚ → ℚ) (w h temp : ℚ)
    (disp : String → Pos2) (hw : 200 ≤ w) (hh : 200 ≤ h) :
    ∀ (l : List String) (pos : String → Pos2),
      (∀ id, inBand w h (pos id)) →
      ∀ id, inBand w h (applyPass sq w h temp disp l pos id) := by
  intro l
  induction l with
  | nil => intro pos hp id; exact hp id
  | cons e rest ih =>
      intro pos hp id
      refine ih _ ?_ id
      intro id2
      dsimp only
      by_cases hid : id2 = e
      · rw [if_pos hid]
        exact ⟨(clamp_bounds w _ hw).1, (clamp_bounds w _ hw).2,
          (clamp_bounds h _ hh).1, (clamp_bounds h _ hh).2⟩
      · rw [if_neg hid]
        exact hp id2

/-- One full iteration keeps every position inside the canvas band. -/
lemma fdIteration_pointwise (sq : ℚ → ℚ) (w h k : ℚ) (ents : List String)
    (conns : List (String × List String)) (hw : 200 ≤ w) (hh : 200 ≤ h)
    (st : (String → Pos2) × ℚ) (hp : ∀ id, inBand w h (st.1 id)) :
    ∀ id, inBand w h ((fdIteration sq w h k ents conns st).1 id) := by
  unfold fdIteration
  dsimp only
  exact applyPass_pointwise sq w h st.2 _ hw hh ents st.1 hp

/-- Any number of iterations keeps every position inside the canvas band. -/
lemma fdIterate_pointwise (sq : ℚ → ℚ) (w h k : ℚ) (ents : List String)
    (conns : List (String × List String)) (hw : 200 ≤ w) (hh : 200 ≤ h) :
    ∀ (n : Nat) (st : (String → Pos2) × ℚ), (∀ id, inBand w h (st.1 id)) →
      ∀ id, inBand w h
        (((fdIteration sq w h k ents conns)^[n] st).1 id) := by
  intro n
  induction n with
  | zero => intro st hp; exact hp
  | succ n ih =>
      intro st hp
      rw [Function.iterate_succ_apply]
      exact ih _ (fdIteration_pointwise sq w h k ents conns hw hh st hp)

/-- The initialisation consumes only the draws at indices below the entity
count, so agreeing draw streams initialise identically. -/
lemma fdInitAux_congr (d1 d2 : List Pos2) :
    ∀ (l : List (Nat × String)) (f : String → Pos2),
      (∀ q ∈ l, d1.getD q.1 (100, 100) = d2.getD q.1 (100, 100)) →
      fdInitAux d1 l f = fdInitAux d2 l f := by
  intro l
  induction l with
  | nil => intro f _; rfl
  | cons q rest ih =>
      intro f hq
      show fdInitAux d1 rest _ = fdInitAux d2 rest _
      rw [hq q (List.mem_cons_self q rest)]
      exact ih _ (fun p hp => hq p (List.mem_cons_of_mem q hp))

/-- Draw streams that agree below the entity count give the same initial
positions. -/
lemma fdInit_congr (ents : List String) (d1 d2 : List Pos2)
    (h : ∀ i < ents.length, d1.getD i (100, 100) = d2.getD i (100, 100)) :
    fdInit ents d1 = fdInit ents d2 := by
  unfold fdInit
  apply fdInitAux_congr
  intro q hq
  apply h
  have hsome := List.mem_enum_iff_getElem?.mp hq
  by_contra hcon
  rw [List.getElem?_eq_none (le_of_not_lt hcon)] at hsome
  cases hsome

/-! Claim theorems. -/

/-- C1: after `put(id, f1, p1)`, `get(id, f1)` returns the stored analysis
with payload `p1`; `get(id, f2)` with `f2 ≠ f1` misses even though an entry
for `id` exists; after a further `put(id, f2, p2)`, `get(id, f1)` misses; and
in general a lookup succeeds iff an entry exists for the unit id whose stored
fingerprint equals the argument. -/
theorem cache_correct {α : Type} (table : List (CacheEntry α))
    (id f1 f2 : String) (p1 p2 : α) (m1 m2 c1 c2 t1 t2 : String)
    (hne : f1 ≠ f2) :
    ((getAnalysisCache (saveAnalysisCache table id f1 p1 m1 c1 t1) id f1).map
        (fun e => e.raw_gpt_response) = some p1)
    ∧ getAnalysisCache (saveAnalysisCache table id f1 p1 m1 c1 t1) id f2
        = none
    ∧ getAnalysisCache
        (saveAnalysisCache (saveAnalysisCache table id f1 p1 m1 c1 t1)
          id f2 p2 m2 c2 t2) id f1 = none
    ∧ ∀ (tbl : List (CacheEntry α)) (i f : String),
        (getAnalysisCache tbl i f).isSome ↔
          ∃ e ∈ tbl, e.story_id = i ∧ e.story_content_hash = f := by
  refine ⟨?_, ?_, ?_, fun tbl i f => getAnalysisCache_isSome tbl i f⟩
  · rw [getAnalysisCache_save, if_pos rfl]
    rfl
  · rw [getAnalysisCache_save, if_neg hne]
  · rw [getAnalysisCache_save, if_neg (Ne.symm hne)]

/-- Witness for C1 at concrete inputs. -/
theorem cache_correct_witness :
    ((getAnalysisCache
        (saveAnalysisCache ([] : List (CacheEntry String)) "s" "h1" "P1" "m"
          "c1" "t1") "s" "h1").map (fun e => e.raw_gpt_response) = some "P1")
    ∧ getAnalysisCache
        (saveAnalysisCache ([] : List (CacheEntry String)) "s" "h1" "P1" "m"
          "c1" "t1") "s" "h2" = none
    ∧ getAnalysisCache
        (saveAnalysisCache
          (saveAnalysisCache ([] : List (CacheEntry String)) "s" "h1" "P1" "m"
            "c1" "t1") "s" "h2" "P2" "m" "c2" "t2") "s" "h1" = none
    ∧ ((getAnalysisCache ([] : List (CacheEntry String)) "s" "h1").isSome ↔
        ∃ e ∈ ([] : List (CacheEntry String)),
          e.story_id = "s" ∧ e.story_content_hash = "h1") :=
  have H := cache_correct ([] : List (CacheEntry String)) "s" "h1" "h2" "P1"
    "P2" "m" "m" "c1" "c2" "t1" "t2" (by decide)
  ⟨H.1, H.2.1, H.2.2.1, H.2.2.2 [] "s" "h1"⟩

/-- C10: adding a connection whose `(target_event_id, relation_type)` key is
already stored leaves the connection list unchanged (the first insertion's
label wins), and any sequence of `add_connection` calls starting from the
empty list yields a list in which no two connections share that key. -/
theorem add_connection_idempotent_key
    (conns : List EventConnection) (t r l : String)
    (calls : List (String × String × String))
    (h : ∃ c ∈ conns, c.target_event_id = t ∧ c.relation_type = r) :
    addConnection conns t r l = conns ∧
    List.Pairwise (fun a b => connKey a ≠ connKey b)
      (calls.foldl (fun cs q => addConnection cs q.1 q.2.1 q.2.2) []) :=
  ⟨addConnection_of_mem conns t r l h,
   addConnection_foldl_pairwise calls [] List.Pairwise.nil⟩

/-- Witness for C10 at concrete inputs. -/
theorem add_connection_idempotent_key_witness :
    addConnection
      [{ target_event_id := "b", relation_type := "character",
         relation_label := "first" }] "b" "character" "second" =
      [{ target_event_id := "b", relation_type := "character",
         relation_label := "first" }] ∧
    List.Pairwise (fun a b => connKey a ≠ connKey b)
      ([("b", "character", "x"), ("b", "character", "z"),
        ("c", "temporal", "w")].foldl
        (fun cs q => addConnection cs q.1 q.2.1 q.2.2) []) :=
  add_connection_idempotent_key
    [{ target_event_id := "b", relation_type := "character",
       relation_label := "first" }] "b" "character" "second"
    [("b", "character", "x"), ("b", "character", "z"), ("c", "temporal", "w")]
    (by decide)

/-- C3: on a non-empty ascending list of valid line indices, the resolved
position is a member of the list, is the requested position itself whenever
that is valid, minimises the absolute distance to the request, and on a
distance tie is at most every equally distant valid index (tie-break to the
smaller index). -/
theorem resolve_position_correct (p : Int) (V : List Int) (hne : V ≠ [])
    (hs : List.Sorted (· < ·) V) :
    resolvePosition p V ∈ V ∧
    (p ∈ V → resolvePosition p V = p) ∧
    (∀ v ∈ V, (resolvePosition p V - p).natAbs ≤ (v - p).natAbs) ∧
    (∀ v ∈ V, (v - p).natAbs = (resolvePosition p V - p).natAbs →
      resolvePosition p V ≤ v) := by
  cases V with
  | nil => exact absurd rfl hne
  | cons v vs =>
      by_cases hp : p ∈ v :: vs
      · have hr : resolvePosition p (v :: vs) = p := by
          simp only [resolvePosition, if_pos hp]
        rw [hr]
        refine ⟨hp, fun _ => rfl, ?_, ?_⟩
        · intro w _
          simp
        · intro w _ he
          simp only [sub_self, Int.natAbs_zero] at he
          omega
      · have hr : resolvePosition p (v :: vs) =
            vs.foldl (fun best x =>
              if (x - p).natAbs < (best - p).natAbs then x else best) v := by
          simp only [resolvePosition, if_neg hp]
        obtain ⟨hmem, hall⟩ := snapFold_spec p vs v hs
        rw [hr]
        exact ⟨hmem, fun hp' => absurd hp' hp,
          fun w hw => (hall w hw).1, fun w hw => (hall w hw).2⟩

/-- Witness for C3 on the documented example set `{0, 2, 5, 7}`: 3 snaps to
2, the tie at 1 snaps down to 0, and the valid position 5 stays. -/
theorem resolve_position_correct_witness :
    resolvePosition 3 [0, 2, 5, 7] ∈ [0, 2, 5, 7] ∧
    (resolvePosition 3 [0, 2, 5, 7] - 3).natAbs ≤ ((5 : Int) - 3).natAbs ∧
    resolvePosition 1 [0, 2, 5, 7] ≤ 0 ∧
    resolvePosition 3 [0, 2, 5, 7] = 2 ∧
    resolvePosition 1 [0, 2, 5, 7] = 0 ∧
    resolvePosition 5 [0, 2, 5, 7] = 5 :=
  have H3 := resolve_position_correct 3 [0, 2, 5, 7] (by decide) (by decide)
  have H1 := resolve_position_correct 1 [0, 2, 5, 7] (by decide) (by decide)
  ⟨H3.1, H3.2.2.1 5 (by decide), H1.2.2.2 0 (by decide) (by decide),
   by decide, by decide, by decide⟩

/-- C9: the assembled timeline's groups carry strictly ascending years, every
group is sorted by story position, the sort is stable (the sublist of a
group's events at any fixed position equals the input-order sublist of that
year's events at that position), and the documented example
e1(year 5, pos 3), e2(year 5, pos 1), e3(year 3, pos 9) assembles to
groups year 3 = e3 and year 5 = e2 before e1. -/
theorem build_timeline_ordering (evts : List TEvent) :
    List.Sorted (· < ·) ((buildTimelineYears evts).map (fun g => g.year)) ∧
    (∀ g ∈ buildTimelineYears evts, List.Sorted posLe g.events) ∧
    (∀ g ∈ buildTimelineYears evts, ∀ pr : Int,
      g.events.filter (fun e => e.position = pr) =
        (evts.filter (fun e => e.year = g.year)).filter
          (fun e => e.position = pr)) ∧
    buildTimelineYears
      [⟨"e1", "s", "t1", 5, "", 3, [], [], []⟩,
       ⟨"e2", "s", "t2", 5, "", 1, [], [], []⟩,
       ⟨"e3", "s", "t3", 3, "", 9, [], [], []⟩] =
      [⟨3, "", [⟨"e3", "s", "t3", 3, "", 9, [], [], []⟩]⟩,
       ⟨5, "", [⟨"e2", "s", "t2", 5, "", 1, [], [], []⟩,
                ⟨"e1", "s", "t1", 5, "", 3, [], [], []⟩]⟩] := by
  refine ⟨?_, ?_, ?_, by decide⟩
  · have hkeys : List.Sorted (· < ·)
        (List.insertionSort (fun a b : Int => a ≤ b) (yearKeys evts)) :=
      List.Sorted.lt_of_le (List.sorted_insertionSort _ _)
        ((List.perm_insertionSort _ _).nodup_iff.mpr (yearKeys_nodup evts))
    unfold buildTimelineYears
    rw [List.map_map]
    exact List.pairwise_map.mpr (hkeys.imp (fun h => h))
  · intro g hg
    unfold buildTimelineYears at hg
    obtain ⟨y, _, rfl⟩ := List.mem_map.mp hg
    exact List.sorted_insertionSort posLe _
  · intro g hg pr
    unfold buildTimelineYears at hg
    obtain ⟨y, _, rfl⟩ := List.mem_map.mp hg
    show (List.insertionSort posLe
        (evts.filter (fun e => e.year = y))).filter
        (fun e => e.position = pr) = _
    rw [filter_insertionSort]

/-- C4 counterexample: two events in different stories share character `c1`
and the non-world location `l1`; the cross-story builder emits exactly one
edge for the pair, but its relation type and label name only the character —
the location kind is not merged into any combined character+location
label. -/
theorem cross_connections_no_union_label :
    getCrossStoryConnections
      [⟨"a", "s1", "tA", 0, "", 0, ["c1"], ["l1"], []⟩,
       ⟨"b", "s2", "tB", 0, "", 0, ["c1"], ["l1"], []⟩]
      (fun c => if c = "c1" then some "C" else none)
      (fun l => if l = "l1" then some "Cave" else none) "World" =
      [⟨"a", "b", "character", "Nhân vật chung: C"⟩] ∧
    (⟨"a", "b", "character", "Nhân vật chung: C"⟩ : ConnOut).relation_type
      = "character" := by
  exact ⟨by decide, rfl⟩

/-- C4 (amended): the relationship builders never emit two parallel edges for
one canonical pair — the cross-story event builder keeps at most one edge per
canonical pair, with the first contributing kind (character before location)
claiming the pair, as the concrete shared character+location input shows; the
entity-diagram builder does merge the kinds into the combined
`"story+location"` label. -/
theorem relationship_graph_dedup (evts : List TEvent)
    (en ln : String → Option String) (wn : String) :
    List.Pairwise (fun c d => connCanon c ≠ connCanon d)
      (getCrossStoryConnections evts en ln wn) ∧
    getCrossStoryConnections
      [⟨"a", "s1", "tA", 0, "", 0, ["c1"], ["l1"], []⟩,
       ⟨"b", "s2", "tB", 0, "", 0, ["c1"], ["l1"], []⟩]
      (fun c => if c = "c1" then some "C" else none)
      (fun l => if l = "l1" then some "Cave" else none) "World" =
      [⟨"a", "b", "character", "Nhân vật chung: C"⟩] ∧
    analyzeConnections [⟨["A", "B"], ["L"]⟩] "A" "B" =
      some "story+location" ∧
    analyzeConnections [⟨["A", "B"], ["L"]⟩] "B" "A" =
      some "story+location" ∧
    analyzeConnections [⟨["A", "B"], []⟩] "A" "B" = some "story" :=
  ⟨crossConnections_pairwise evts en ln wn, by decide, by decide, by decide,
   by decide⟩

/-- C7 counterexample: event `a` carries an explicit connection to `b` typed
`character`, and the two events also share character `c1` across stories, so
the assembled timeline's merged connection list holds two distinct entries
with the same canonical pair and the same relation type. -/
theorem timeline_connections_dup_counterexample :
    timelineConnections
      [⟨"a", "s1", "tA", 0, "", 0, ["c1"], [], [⟨"b", "character", "lbl"⟩]⟩,
       ⟨"b", "s2", "tB", 0, "", 0, ["c1"], [], []⟩]
      (fun c => if c = "c1" then some "C" else none)
      (fun _ => none) "w" =
      [⟨"a", "b", "character", "lbl"⟩,
       ⟨"a", "b", "character", "Nhân vật chung: C"⟩] ∧
    connCanon ⟨"a", "b", "character", "lbl"⟩ =
      connCanon ⟨"a", "b", "character", "Nhân vật chung: C"⟩ ∧
    (⟨"a", "b", "character", "lbl"⟩ : ConnOut).relation_type =
      (⟨"a", "b", "character", "Nhân vật chung: C"⟩ : ConnOut).relation_type ∧
    (⟨"a", "b", "character", "lbl"⟩ : ConnOut) ≠
      ⟨"a", "b", "character", "Nhân vật chung: C"⟩ := by
  exact ⟨by decide, rfl, rfl, by decide⟩

/-- C6: a unit whose content has no valid (non-blank) line never contributes
an event — every event accepted by the combined processing belongs to a
stored story with at least one valid line and carries a position inside that
story's valid-line set; a fully blank story has no story-map entry (so its
dependent analyzer events are dropped); and the single-story extraction
signals an error on a fully blank story before processing any event. -/
theorem no_valid_position_discard (stories : List StoryRec)
    (events_data : List RawEvent) (world_id : String)
    (charMap locMap : String → Option String) :
    (∀ e ∈ processCombinedGptResult events_data (buildStoryMap stories)
        world_id charMap locMap,
      ∃ (idx : Nat) (st : StoryRec), stories[idx]? = some st ∧
        e.story_id = st.story_id ∧
        st.lines.all blankLine = false ∧
        e.story_position ∈ nonEmptyIndices st.lines) ∧
    (∀ (idx : Nat) (st : StoryRec), stories[idx]? = some st →
      st.lines.all blankLine = true →
      lookupStory (buildStoryMap stories) idx = none) ∧
    (∀ st : StoryRec, st.lines.all blankLine = true →
      extractSinglePrecheck st = Except.error "Story has no content") := by
  refine ⟨?_, ?_, ?_⟩
  · intro e he
    unfold processCombinedGptResult at he
    obtain ⟨evt, _, heq⟩ := List.mem_filterMap.mp he
    cases hlk : lookupStory (buildStoryMap stories) evt.story_index with
    | none =>
        rw [hlk] at heq
        cases heq
    | some info =>
        rw [hlk] at heq
        dsimp only at heq
        obtain ⟨st, hst, hbl2, hinfo⟩ :=
          lookupStory_buildStoryMap stories evt.story_index info hlk
        by_cases hskip : (blankLine evt.title ∧ blankLine evt.description)
        · rw [if_pos hskip] at heq
          cases heq
        · rw [if_neg hskip] at heq
          cases heq
          refine ⟨evt.story_index, st, hst, ?_, hbl2, ?_⟩
          · rw [hinfo]
          · show resolvePosition evt.story_position info.non_empty_indices
              ∈ nonEmptyIndices st.lines
            rw [hinfo]
            exact resolvePosition_mem _ _ (nonEmptyIndices_ne_nil _ hbl2)
  · intro idx st hst hbl
    exact lookupStory_blank_none stories idx st hst hbl
  · intro st h
    unfold extractSinglePrecheck
    rw [if_pos h]

/-- C7 (amended): the merged connection list of the assembled timeline is the
plain concatenation of the events' explicit connections with the inferred
cross-story connections; only the inferred part is deduplicated (by canonical
pair, across both relation kinds), so duplicates against explicit
connections are possible. -/
theorem timeline_connections_merge (evts : List TEvent)
    (en ln : String → Option String) (wn : String) :
    timelineConnections evts en ln wn =
      ((evts.map (fun e => e.connections.map (fun c =>
        ({ from_event_id := e.event_id, to_event_id := c.target_event_id,
           relation_type := c.relation_type,
           relation_label := c.relation_label } : ConnOut)))).flatten)
      ++ getCrossStoryConnections evts en ln wn ∧
    List.Pairwise (fun c d => connCanon c ≠ connCanon d)
      (getCrossStoryConnections evts en ln wn) :=
  ⟨rfl, crossConnections_pairwise evts en ln wn⟩

/-- C2 counterexample: two runs of the force-directed layout with the same
entity list, the same connection map, the same canvas, and the same iteration
count produce different outputs — the initial positions come from the ambient
`random.uniform` stream (here the explicit draw lists `(200, 200)` versus
`(300, 300)`), and the function has no seed parameter at all that could be
held fixed. -/
theorem layout_no_seed_counterexample :
    forceDirectedLayout ["a"] [] 1200 800 0 [(200, 200)] (fun _ => 0) ≠
      forceDirectedLayout ["a"] [] 1200 800 0 [(300, 300)] (fun _ => 0) := by
  decide

/-- C2 (amended): the layout output is a pure function of the entity list,
connection map, canvas, iteration count and the ambient random draws at the
indices below the entity count — any two draw streams agreeing there give
identical output.  No explicit seed parameter exists; reproducibility holds
only relative to the global generator's draws. -/
theorem force_directed_layout_deterministic (ents : List String)
    (conns : List (String × List String)) (w h : ℚ) (iterations : Nat)
    (draws1 draws2 : List Pos2) (sq : ℚ → ℚ)
    (hagree : ∀ i < ents.length,
      draws1.getD i (100, 100) = draws2.getD i (100, 100)) :
    forceDirectedLayout ents conns w h iterations draws1 sq =
      forceDirectedLayout ents conns w h iterations draws2 sq := by
  cases ents with
  | nil => rfl
  | cons a l =>
      unfold forceDirectedLayout
      rw [fdInit_congr (a :: l) draws1 draws2 hagree]

/-- Witness for the amended C2: a longer draw stream agreeing on the consumed
part gives the same layout. -/
theorem force_directed_layout_deterministic_witness :
    forceDirectedLayout ["a"] [] 1200 800 2 [(200, 200)] (fun _ => 0) =
      forceDirectedLayout ["a"] [] 1200 800 2 [(200, 200), (999, 999)]
        (fun _ => 0) :=
  force_directed_layout_deterministic ["a"] [] 1200 800 2 [(200, 200)]
    [(200, 200), (999, 999)] (fun _ => 0) (by decide)

/-- C5 counterexample: on a 100-by-100 canvas (smaller than twice the margin)
the claimed band `margin ≤ x ≤ width - margin` is `100 ≤ x ≤ 0`, and the code
violates it: with zero iterations the output position is the raw draw
`(50, 50)` — legitimate for `random.uniform(100, 0)`, which returns a value
between 0 and 100 when its bounds are inverted — and `100 ≤ 50` fails (with
one or more iterations the clamp would instead pin the position to 100,
violating `x ≤ 0`).  The claim is false for canvases narrower than twice the
margin. -/
theorem layout_bounds_small_canvas_counterexample :
    forceDirectedLayout ["a"] [] 100 100 0 [(50, 50)] (fun _ => 0) =
      some [("a", (50, 50))] ∧
    ¬((100 : ℚ) ≤ 50) := by
  constructor
  · decide
  · decide

/-- C5 (amended): for canvases measuring at least twice the margin in each
dimension and initial draws inside the band (the contract of
`random.uniform(margin, dim - margin)`), every position produced by the
force-directed layout lies within `[margin, dim - margin]` in both
coordinates, for every iteration count, every connection map, and every value
of the square-root function — the band is established at initialisation and
re-established by every iteration's clamp. -/
theorem force_directed_layout_bounds (ents : List String)
    (conns : List (String × List String)) (w h : ℚ) (iterations : Nat)
    (draws : List Pos2) (sq : ℚ → ℚ) (ps : List (String × Pos2))
    (hw : 200 ≤ w) (hh : 200 ≤ h)
    (hdraws : ∀ d ∈ draws,
      100 ≤ d.1 ∧ d.1 ≤ w - 100 ∧ 100 ≤ d.2 ∧ d.2 ≤ h - 100)
    (hout : forceDirectedLayout ents conns w h iterations draws sq
      = some ps) :
    ∀ q ∈ ps, 100 ≤ q.2.1 ∧ q.2.1 ≤ w - 100 ∧
      100 ≤ q.2.2 ∧ q.2.2 ≤ h - 100 := by
  cases ents with
  | nil =>
      unfold forceDirectedLayout at hout
      cases hout
  | cons a l =>
      unfold forceDirectedLayout at hout
      dsimp only at hout
      injection hout with hps
      subst hps
      intro q hq
      obtain ⟨e, _, rfl⟩ := List.mem_map.mp hq
      have hcorner : inBand w h ((100 : ℚ), (100 : ℚ)) := by
        unfold inBand
        dsimp only
        exact ⟨le_refl _, by linarith, le_refl _, by linarith⟩
      have hinit : ∀ id, inBand w h (fdInit (a :: l) draws id) := by
        refine fdInitAux_pointwise draws (inBand w h) ?_ _ _
          (fun _ => hcorner)
        intro i
        rcases Nat.lt_or_ge i draws.length with hlt | hge
        · rw [List.getD_eq_getElem draws (100, 100) hlt]
          exact hdraws _ (List.getElem_mem hlt)
        · rw [List.getD_eq_default draws (100, 100) hge]
          exact hcorner
      exact fdIterate_pointwise sq w h
        (sq (w * h / ((a :: l).length : ℚ))) (a :: l) conns hw hh iterations
        (fdInit (a :: l) draws, w / 10) hinit e

/-- Witness for the amended C5 on a 1200-by-800 canvas, one entity, one
iteration. -/
theorem force_directed_layout_bounds_witness :
    (100 : ℚ) ≤ 200 ∧ (200 : ℚ) ≤ 1200 - 100 ∧
    (100 : ℚ) ≤ 300 ∧ (300 : ℚ) ≤ 800 - 100 :=
  force_directed_layout_bounds ["a"] [] 1200 800 0 [(200, 300)]
    (fun _ => 0) [("a", (200, 300))] (by norm_num) (by norm_num)
    (by
      intro d hd
      simp only [List.mem_singleton] at hd
      subst hd
      norm_num)
    (by decide) ("a", (200, 300)) (by decide)

/-- C8 counterexample: a single node under the default circular layout (the
strategy chosen when no connections are supplied) is placed on the circle at
angle 0 — at `(centre_x + radius, centre_y) = (866, 400)` on the default
1200-by-800 canvas — not at the canvas centre `(600, 400)`; and the
force-directed layout on an empty entity list is the embedded
`ZeroDivisionError` (`none`, from `area / len(entities)`), not an empty
result.  The cosine and sine parameters are instantiated by constant
functions that agree with `math.cos`/`math.sin` at the only consumed
argument, 0. -/
theorem layout_single_not_centered_counterexample :
    circularLayout (314159 / 100000) (fun _ => 1) (fun _ => 0) 1200 800 none
      ["a"] = [("a", (866, 400))] ∧
    (((866 : ℚ), (400 : ℚ)) ≠ ((600 : ℚ), (400 : ℚ))) ∧
    forceDirectedLayout [] [] 1200 800 100 [] (fun _ => 0) = none := by
  refine ⟨?_, by decide, rfl⟩
  have h1 : circularLayout (314159 / 100000) (fun _ => 1) (fun _ => 0)
      1200 800 none ["a"] =
      [("a", ((((1200 : Int).fdiv 2 : Int) : ℚ) +
          (((pyMinI 1200 800).fdiv 3 : Int) : ℚ) * 1,
        (((800 : Int).fdiv 2 : Int) : ℚ) +
          (((pyMinI 1200 800).fdiv 3 : Int) : ℚ) * 0))] := rfl
  rw [h1]
  have h2 : (pyMinI 1200 800).fdiv 3 = 266 := by decide
  have h3 : (1200 : Int).fdiv 2 = 600 := by decide
  have h4 : (800 : Int).fdiv 2 = 400 := by decide
  rw [h2, h3, h4]
  norm_num

/-- C8 (amended): the circular layout returns the empty answer on an empty
entity list (its loop never divides by the entity count) and places a single
entity on the circle at angle 0, i.e. at
`(width // 2 + min(width, height) // 3, height // 2)`, not centred; the
force-directed layout raises on an empty entity list (embedded as `none`)
and returns a defined position list — one entry per entity — for every
non-empty input; exactly coinciding nodes are handled by the `or 1` guard,
which floors the distance value 0 to 1 before any division. -/
theorem layout_degenerate_behaviour
    (piQ : ℚ) (cosF sinF : ℚ → ℚ) (w h : Int)
    (ents : List String) (conns : List (String × List String))
    (wq hq : ℚ) (iterations : Nat) (draws : List Pos2) (sq : ℚ → ℚ)
    (e : String) (hcos : cosF 0 = 1) (hsin : sinF 0 = 0)
    (hne : ents ≠ []) :
    circularLayout piQ cosF sinF w h none [] = [] ∧
    circularLayout piQ cosF sinF w h none [e] =
      [(e, (((w.fdiv 2 : Int) : ℚ) + (((pyMinI w h).fdiv 3 : Int) : ℚ),
            ((h.fdiv 2 : Int) : ℚ)))] ∧
    forceDirectedLayout [] conns wq hq iterations draws sq = none ∧
    (∃ ps, forceDirectedLayout ents conns wq hq iterations draws sq = some ps
      ∧ ps.length = ents.length) ∧
    distOr1 (fun _ => 0) 0 0 = 1 := by
  refine ⟨rfl, ?_, rfl, ?_, by decide⟩
  · unfold circularLayout
    dsimp only [List.enum, List.enumFrom, List.map, Option.getD]
    norm_num
    rw [hcos, hsin]
    norm_num
  · cases ents with
    | nil => exact absurd rfl hne
    | cons a l =>
        refine ⟨_, rfl, ?_⟩
        simp [List.length_map]

/-- Witness for the amended C8 on the default 1200-by-800 canvas. -/
theorem layout_degenerate_behaviour_witness :
    circularLayout (314159 / 100000) (fun _ => 1) (fun _ => 0) 1200 800 none
      ([] : List String) = [] ∧
    circularLayout (314159 / 100000) (fun _ => 1) (fun _ => 0) 1200 800 none
      ["a"] = [("a", (866, 400))] ∧
    forceDirectedLayout ([] : List String) [] 1200 800 0
      [((200 : ℚ), (200 : ℚ))] (fun _ => 0) = none ∧
    distOr1 (fun _ => 0) 0 0 = 1 := by
  have H := layout_degenerate_behaviour (314159 / 100000) (fun _ => 1)
    (fun _ => 0) 1200 800 ["a"] [] 1200 800 0 [(200, 200)] (fun _ => 0)
    "a" rfl rfl (by decide)
  refine ⟨H.1, ?_, H.2.2.1, H.2.2.2.2⟩
  rw [H.2.1]
  have h2 : (pyMinI 1200 800).fdiv 3 = 266 := by decide
  have h3 : (1200 : Int).fdiv 2 = 600 := by decide
  have h4 : (800 : Int).fdiv 2 = 400 := by decide
  rw [h2, h3, h4]
  norm_num

end StoryCreator
